import Mathlib

/-!
Verification of the agent control loop and DOM state-synchronization engine of
the browser-use-js repository, as a shallow embedding in Lean 4.

Conventions used throughout:
* JavaScript numbers that hold token counts are modelled as `Int` (all values
  arising here are integers; the error handler can push a ceiling below zero).
* JavaScript strings are modelled as `String`; `s.length` is the character
  count, which agrees with the source for the inputs considered here.
* JavaScript objects used as string-keyed maps are modelled as association
  lists in insertion order (`Object.entries` / `Object.values` enumerate in
  that order for the string keys used by the source).
* Fallible or partial source behaviour is modelled with `Option`.
-/

/-! ## Message data model (message_manager/views.js, service.js)

A message content is either a plain string or an ordered list of parts, each
part being a text segment or an image segment (part.type is 'text' or
'image_url' in the source). -/

inductive MsgPart where
  | text (t : String)
  | image (url : String)
deriving DecidableEq, Repr

inductive Content where
  | str (s : String)
  | parts (l : List MsgPart)
deriving DecidableEq, Repr

structure Message where
  role : String
  content : Content
deriving DecidableEq, Repr

/-- Token estimate of one content part, from `_addMessageWithTokens`
(service.js 105-124): text parts cost `Math.ceil(text.length / 4)`, image
parts cost a flat 1000. -/
def partTokens : MsgPart → Nat
  | .text t => (t.length + 3) / 4
  | .image _ => 1000

/-- Token estimate of a message content, from `_addMessageWithTokens`
(service.js 105-124): `Math.ceil(content.length / 4)` for a string; for a
part list, the sum of the text-part estimates plus 1000 per image part
(computed here as one sum over parts, which equals the two separate sums of
the source). -/
def estimateTokens : Content → Int
  | .str s => ((s.length + 3) / 4 : Nat)
  | .parts l => ((l.map partTokens).sum : Nat)

/-- The token count `cutMessages` (service.js 262) recomputes for the system
and task messages: `Math.ceil(message.content.length / 4)` applied directly to
the content value, so for a part list it divides the number of parts, not
their text cost. -/
def contentLengthTokens : Content → Int
  | .str s => ((s.length + 3) / 4 : Nat)
  | .parts l => ((l.length + 3) / 4 : Nat)

/-- MessageManagerSettings (service.js 15-37). `sensitiveData` is the
label-to-value mapping (a JS object, here an association list); `none` models
the `null` default. -/
structure MMSettings where
  maxInputTokens : Int
  messageContext : Option String
  sensitiveData : Option (List (String × String))
  availableFilePaths : Option (List String)
deriving DecidableEq, Repr

/-- The MessageManager together with its MessageManagerState (state.history,
state.currentTokens, state.maxTokens are flattened into this record). -/
structure MessageManager where
  settings : MMSettings
  history : List Message
  currentTokens : Int
  maxTokens : Int
deriving DecidableEq, Repr

/-- `_addMessageWithTokens` (service.js 105-131): push the message and add its
estimated cost to the running total. -/
def _addMessageWithTokens (mm : MessageManager) (m : Message) : MessageManager :=
  { mm with history := mm.history ++ [m],
            currentTokens := mm.currentTokens + estimateTokens m.content }

/-- The task message content built by `_initializeHistory` (service.js 74-98). -/
def taskContent (task : String) (settings : MMSettings) : String :=
  let c0 := "Task: " ++ task
  let c1 := match settings.messageContext with
    | some ctx => c0 ++ "\n\n" ++ ctx
    | none => c0
  match settings.availableFilePaths with
  | some paths =>
      if paths.length > 0 then
        c1 ++ "\n\nAvailable files:" ++ String.join (paths.map (fun p => "\n- " ++ p))
      else c1
  | none => c1

/-- The MessageManager constructor (service.js 50-68) on an empty initial
state: seed the history with the system message and the task message, then
set `state.maxTokens` from `settings.maxInputTokens`. -/
def mkMessageManager (task : String) (systemMessage : Message)
    (settings : MMSettings) : MessageManager :=
  let mm0 : MessageManager :=
    { settings := settings, history := [], currentTokens := 0,
      maxTokens := 0 }
  let mm1 := _addMessageWithTokens mm0 systemMessage
  let mm2 := _addMessageWithTokens mm1
    { role := "user", content := .str (taskContent task settings) }
  { mm2 with maxTokens := settings.maxInputTokens }

/-- The trimming loop of `cutMessages` (service.js 265-293): the source walks
the history from its last entry down to index 2 and splices each message it
keeps at position 2 of the rebuilt window, so the kept suffix is accumulated
by prepending while the input is consumed newest first. `l` is the history
beyond the first two messages, newest first; `t` is the running rebuilt
total; `kept` is the rebuilt suffix collected so far. -/
def cutMessagesLoop (maxTokens : Int) :
    List Message → Int → List Message → List Message × Int
  | [], t, kept => (kept, t)
  | m :: older, t, kept =>
      let mt := estimateTokens m.content
      if t + mt > maxTokens then cutMessagesLoop maxTokens older t kept
      else cutMessagesLoop maxTokens older (t + mt) (m :: kept)

/-- `cutMessages` (service.js 248-300). Returns unchanged when the running
total is within `state.maxTokens`; otherwise rebuilds the window from the
first two messages plus the greedily kept newest messages. The source indexes
`history[0]` and `history[1]` unconditionally (it would dereference
`undefined` on a shorter history, which cannot arise from the constructor);
the fallthrough branch of the match is arbitrary and every theorem below
assumes at least two messages. -/
def cutMessages (mm : MessageManager) : MessageManager :=
  if mm.currentTokens ≤ mm.maxTokens then mm
  else
    match mm.history with
    | sys :: task :: rest =>
        let base := contentLengthTokens sys.content + contentLengthTokens task.content
        let r := cutMessagesLoop mm.maxTokens rest.reverse base []
        { mm with history := sys :: task :: r.1, currentTokens := r.2 }
    | _ => mm

/-! ### Supporting lemmas about the trimming loop -/

/-- Every per-content token estimate is nonnegative. -/
theorem estimateTokens_nonneg (c : Content) : 0 ≤ estimateTokens c := by
  cases c <;> exact Int.natCast_nonneg _

/-- If the rebuilt total starts within the ceiling, the trimming loop keeps it
within the ceiling: a message is only added after the guard check. -/
theorem cutMessagesLoop_le (maxTokens : Int) :
    ∀ (l : List Message) (t : Int) (kept : List Message),
      t ≤ maxTokens → (cutMessagesLoop maxTokens l t kept).2 ≤ maxTokens
  | [], t, kept, h => h
  | m :: older, t, kept, h => by
      unfold cutMessagesLoop
      by_cases hg : t + estimateTokens m.content > maxTokens
      · simpa [hg] using cutMessagesLoop_le maxTokens older t kept h
      · have : t + estimateTokens m.content ≤ maxTokens := le_of_not_lt hg
        simpa [hg] using cutMessagesLoop_le maxTokens older (t + estimateTokens m.content) (m :: kept) this

/-- The trimming loop either ends within the ceiling or never kept anything:
its result total exceeds the ceiling only when it equals the initial state. -/
theorem cutMessagesLoop_cases (maxTokens : Int) :
    ∀ (l : List Message) (t : Int) (kept : List Message),
      (cutMessagesLoop maxTokens l t kept).2 ≤ maxTokens ∨
      cutMessagesLoop maxTokens l t kept = (kept, t)
  | [], t, kept => .inr rfl
  | m :: older, t, kept => by
      unfold cutMessagesLoop
      by_cases hg : t + estimateTokens m.content > maxTokens
      · simpa [hg] using cutMessagesLoop_cases maxTokens older t kept
      · have hle : t + estimateTokens m.content ≤ maxTokens := le_of_not_lt hg
        rcases cutMessagesLoop_cases maxTokens older (t + estimateTokens m.content) (m :: kept) with h | h
        · exact .inl (by simpa [hg] using h)
        · refine .inl ?_
          simp only [hg, if_false]
          rw [h]
          exact hle

/-- Sums of nonnegative integer lists only shrink along sublists. -/
theorem sum_le_sum_of_sublist {l1 l2 : List Int} (h : l1.Sublist l2)
    (hn : ∀ x ∈ l2, 0 ≤ x) : l1.sum ≤ l2.sum := by
  induction h with
  | slnil => simp
  | cons a h ih =>
      have := ih (fun x hx => hn x (List.mem_cons_of_mem _ hx))
      have ha : 0 ≤ a := hn a (List.mem_cons_self _ _)
      simp only [List.sum_cons]
      omega
  | cons₂ a h ih =>
      have := ih (fun x hx => hn x (List.mem_cons_of_mem _ hx))
      simp only [List.sum_cons]
      omega

/-- C3: when the running token total exceeds the ceiling, `cutMessages`
keeps `history[0]` (system) and `history[1]` (task) in place unconditionally,
and — provided those two messages carry string content (as the constructor
builds them), the recorded total is the sum of the per-message estimates, and
some subset of the messages beyond the first two could be dropped to bring the
total within the ceiling — the recorded total after the cut is within the
ceiling. Messages are scanned newest first and one is kept only if adding its
estimated cost keeps the cumulative total within the ceiling. -/
theorem cutMessages_keeps_head_and_fits (mm : MessageManager)
    (sys task : Message) (rest : List Message)
    (hh : mm.history = sys :: task :: rest)
    (hover : mm.currentTokens > mm.maxTokens) :
    (∃ kept, (cutMessages mm).history = sys :: task :: kept) ∧
    ((∃ s, sys.content = .str s) → (∃ s, task.content = .str s) →
      mm.currentTokens = (mm.history.map (fun m => estimateTokens m.content)).sum →
      (∃ sub : List Message, sub.Sublist rest ∧
        mm.currentTokens - (sub.map (fun m => estimateTokens m.content)).sum ≤ mm.maxTokens) →
      (cutMessages mm).currentTokens ≤ mm.maxTokens) := by
  have hnle : ¬ mm.currentTokens ≤ mm.maxTokens := not_le_of_gt hover
  constructor
  · refine ⟨(cutMessagesLoop mm.maxTokens rest.reverse
      (contentLengthTokens sys.content + contentLengthTokens task.content) []).1, ?_⟩
    simp [cutMessages, hnle, hh]
  · rintro ⟨ssys, hsys⟩ ⟨stask, htask⟩ hsum ⟨sub, hsub, hle⟩
    have hrest : (sub.map (fun m => estimateTokens m.content)).sum ≤
        (rest.map (fun m => estimateTokens m.content)).sum := by
      refine sum_le_sum_of_sublist (List.Sublist.map _ hsub) ?_
      intro x hx
      rcases List.mem_map.mp hx with ⟨m, _, rfl⟩
      exact estimateTokens_nonneg m.content
    have hbase : estimateTokens sys.content + estimateTokens task.content ≤ mm.maxTokens := by
      rw [hh] at hsum
      simp only [List.map_cons, List.sum_cons] at hsum
      omega
    have hbase2 : contentLengthTokens sys.content + contentLengthTokens task.content ≤
        mm.maxTokens := by
      rw [hsys, htask] at hbase ⊢
      simpa [contentLengthTokens, estimateTokens] using hbase
    have := cutMessagesLoop_le mm.maxTokens rest.reverse
      (contentLengthTokens sys.content + contentLengthTokens task.content) [] hbase2
    simpa [cutMessages, hnle, hh] using this

/-- Concrete system message used by the witnesses below. -/
def wSys : Message := { role := "system", content := .str "12345678" }

/-- Concrete task message used by the witnesses below. -/
def wTask : Message := { role := "user", content := .str "1234" }

/-- Concrete oversized state message used by the witnesses below (24
characters, 6 estimated tokens). -/
def wBig : Message := { role := "user", content := .str "123456789012345678901234" }

/-- Concrete over-budget manager used by the witnesses below: recorded total
9 against a ceiling of 5. -/
def wMM : MessageManager :=
  { settings := { maxInputTokens := 5, messageContext := none,
                  sensitiveData := none, availableFilePaths := none },
    history := [wSys, wTask, wBig], currentTokens := 9, maxTokens := 5 }

/-- Witness for C3 at a concrete over-budget manager: the ceiling is
reachable by dropping the one droppable message, and the cut keeps the first
two messages and lands within the ceiling. -/
theorem cutMessages_keeps_head_and_fits_witness :
    (∃ kept, (cutMessages wMM).history = wSys :: wTask :: kept) ∧
    (cutMessages wMM).currentTokens ≤ wMM.maxTokens := by
  have h := cutMessages_keeps_head_and_fits wMM wSys wTask [wBig] rfl (by decide)
  exact ⟨h.1, h.2 ⟨"12345678", rfl⟩ ⟨"1234", rfl⟩ (by decide)
    ⟨[wBig], List.Sublist.refl _, by decide⟩⟩

/-- C9: with at least the two seeded messages in place, `cutMessages` is
idempotent: a second call directly after a first changes neither the history
nor the recorded token total. -/
theorem cutMessages_idempotent (mm : MessageManager)
    (hlen : 2 ≤ mm.history.length) :
    cutMessages (cutMessages mm) = cutMessages mm := by
  by_cases h0 : mm.currentTokens ≤ mm.maxTokens
  · have h1 : cutMessages mm = mm := by simp [cutMessages, h0]
    rw [h1, h1]
  · obtain ⟨sys, task, rest, hh⟩ : ∃ sys task rest, mm.history = sys :: task :: rest := by
      match hm : mm.history with
      | [] => rw [hm] at hlen; simp at hlen
      | [a] => rw [hm] at hlen; simp at hlen
      | a :: b :: r => exact ⟨a, b, r, rfl⟩
    set base := contentLengthTokens sys.content + contentLengthTokens task.content with hbase
    have hcut : cutMessages mm =
        { mm with history := sys :: task :: (cutMessagesLoop mm.maxTokens rest.reverse base []).1,
                  currentTokens := (cutMessagesLoop mm.maxTokens rest.reverse base []).2 } := by
      simp [cutMessages, h0, hh]
    rcases cutMessagesLoop_cases mm.maxTokens rest.reverse base [] with hle | heq
    · rw [hcut]
      simp only [cutMessages]
      rw [if_pos hle]
    · rw [hcut, heq]
      by_cases h2 : base ≤ mm.maxTokens
      · simp only [cutMessages]
        rw [if_pos h2]
      · simp only [cutMessages, h2, if_false]
        simp [cutMessagesLoop]

/-- Witness for C9 at the concrete over-budget manager: the double cut equals
the single cut. -/
theorem cutMessages_idempotent_witness :
    cutMessages (cutMessages wMM) = cutMessages wMM :=
  cutMessages_idempotent wMM (by decide)

/-! ## Sensitive-data redaction (service.js 323-352) and message operations -/

/-- Global leftmost replacement of the pattern `v` by `repl` in a character
list, the behaviour of `content.replace(new RegExp(value, 'g'), repl)` for a
pattern free of regular-expression metacharacters: scan left to right, replace
each non-overlapping occurrence, never rescan the replacement text. The fuel
argument only drives structural termination; one unit is spent per consumed
character, so fuel equal to the input length always suffices. -/
def replaceAllAux (v repl : List Char) : Nat → List Char → List Char
  | _, [] => []
  | 0, s => s
  | fuel + 1, c :: rest =>
      if v ≠ [] ∧ v.isPrefixOf (c :: rest) then
        repl ++ replaceAllAux v repl fuel (rest.drop (v.length - 1))
      else c :: replaceAllAux v repl fuel rest

/-- String wrapper for `replaceAllAux` with sufficient fuel. -/
def replaceAllStr (v repl s : String) : String :=
  ⟨replaceAllAux v.data repl.data s.data.length s.data⟩

/-- The string branch of `_redactSensitiveData` (service.js 328-338): fold
over the label-value entries, replacing every occurrence of each nonempty
value by the bracketed label. The source builds `new RegExp(value, 'g')` from
the raw value; this embedding matches the value literally, which coincides
with the source exactly when the value contains no regular-expression
metacharacters (see the C7 discussion: for a value such as `a+b` the source
regex does not match the literal text). -/
def redactString (sd : List (String × String)) (s : String) : String :=
  sd.foldl (fun acc e =>
    if e.2 ≠ "" then replaceAllStr e.2 ("[REDACTED:" ++ e.1 ++ "]") acc else acc) s

/-- `_redactSensitiveData` (service.js 323-352) on a message content: strings
are redacted in place; in a part list only the text segments are redacted and
every other segment is returned unchanged. -/
def redactContent (sd : List (String × String)) : Content → Content
  | .str s => .str (redactString sd s)
  | .parts l => .parts (l.map fun p => match p with
      | .text t => .text (redactString sd t)
      | .image u => .image u)

/-- `addStateMessage` (service.js 140-156). The message produced by
`AgentMessagePrompt.getUserMessage` (prompts.js) is taken as an argument —
its construction is presentation logic outside the claims — and is redacted
exactly when `settings.sensitiveData` is set (a present-but-empty mapping is
truthy in the source and is modelled by `some []`), then stored through
`_addMessageWithTokens`. -/
def addStateMessage (mm : MessageManager) (message : Message) : MessageManager :=
  let message2 := match mm.settings.sensitiveData with
    | some sd => { message with content := redactContent sd message.content }
    | none => message
  _addMessageWithTokens mm message2

/-- `addModelOutput` (service.js 162-169): the serialized model output (the
`JSON.stringify` result, taken here as a string argument) is appended as an
assistant message, with no redaction. -/
def addModelOutput (mm : MessageManager) (serialized : String) : MessageManager :=
  _addMessageWithTokens mm { role := "assistant", content := .str serialized }

/-- `addNewTask` (service.js 175-182): appended as a user message, with no
redaction. -/
def addNewTask (mm : MessageManager) (newTask : String) : MessageManager :=
  _addMessageWithTokens mm { role := "user", content := .str ("New task: " ++ newTask) }

/-- The insertion index of `Array.prototype.splice(start, 0, x)`: a negative
start counts back from the end, clamped at 0; a start beyond the end is
clamped to the end. -/
def spliceIndex (len : Nat) (position : Int) : Nat :=
  if position < 0 then ((len : Int) + position).toNat
  else min position.toNat len

/-- `addPlan` (service.js 189-207): a null or empty plan is ignored; with
position -1 the plan message goes through `_addMessageWithTokens` and is
appended at the end of the history; any other position splices the message in
at that index and adds its cost to the running total. -/
def addPlan (mm : MessageManager) (plan : Option String) (position : Int) : MessageManager :=
  match plan with
  | none => mm
  | some p =>
      if p = "" then mm
      else
        let m : Message := { role := "user", content := .str ("Plan: " ++ p) }
        if position = -1 then _addMessageWithTokens mm m
        else
          { mm with
              history := mm.history.insertIdx (spliceIndex mm.history.length position) m,
              currentTokens := mm.currentTokens + ((("Plan: " ++ p).length + 3) / 4 : Nat) }

/-! ### Supporting lemmas about literal global replacement -/

/-- A pattern that occurs nowhere in the input is never replaced: the input
comes back unchanged. -/
theorem replaceAllAux_of_no_occurrence (v repl : List Char) :
    ∀ (fuel : Nat) (s : List Char), ¬ v <:+: s → replaceAllAux v repl fuel s = s
  | fuel, [], _ => by cases fuel <;> rfl
  | 0, _ :: _, _ => rfl
  | fuel + 1, c :: rest, h => by
      have hp : ¬ v.isPrefixOf (c :: rest) = true := by
        rw [List.isPrefixOf_iff_prefix]
        exact fun hpre => h (List.IsPrefix.isInfix hpre)
      have ht : ¬ v <:+: rest := fun hi => h (List.infix_cons_iff.mpr (.inr hi))
      unfold replaceAllAux
      rw [if_neg (by simp [hp])]
      rw [replaceAllAux_of_no_occurrence v repl fuel rest ht]

/-- A nonempty pattern that occurs in the input is replaced: the replacement
text occurs in the output (the source replaces every occurrence; this records
that at least the leftmost one is rewritten). -/
theorem replaceAllAux_infix_repl (v repl : List Char) (hv : v ≠ []) :
    ∀ (fuel : Nat) (s : List Char), s.length ≤ fuel → v <:+: s →
      repl <:+: replaceAllAux v repl fuel s
  | _, [], _, hocc => by
      rcases List.eq_nil_of_infix_nil hocc with rfl
      exact absurd rfl hv
  | 0, c :: rest, hlen, _ => by simp at hlen
  | fuel + 1, c :: rest, hlen, hocc => by
      unfold replaceAllAux
      by_cases hp : v.isPrefixOf (c :: rest) = true
      · rw [if_pos ⟨hv, hp⟩]
        exact (List.prefix_append _ _).isInfix
      · rw [if_neg (by simp [hp])]
        have ht : v <:+: rest := by
          rcases List.infix_cons_iff.mp hocc with hpre | hi
          · exact absurd (List.isPrefixOf_iff_prefix.mpr hpre) hp
          · exact hi
        have := replaceAllAux_infix_repl v repl hv fuel rest (by simpa using Nat.le_of_succ_le_succ hlen) ht
        exact List.infix_cons this


/-- C7 (literal-match model): a newly added state message is stored with
every configured sensitive value redacted from its text content — the plain
string form and the text segments of the part-list form, with image segments
untouched — while task, model-output and plan messages are appended without
redaction and no earlier stored message is rewritten. The last two conjuncts
record the replacement semantics on a concrete pattern: an occurrence of a
nonempty value is rewritten to the bracketed label and a text without the
value is returned unchanged. The source compiles the value into
`new RegExp(value, 'g')`, so this model is exact only for values free of
regular-expression metacharacters; see the C7 entry for the divergence. -/
theorem redaction_literal_model (mm : MessageManager) (sd : List (String × String))
    (hsd : mm.settings.sensitiveData = some sd)
    (msg : Message) (task serialized plan : String) (hplan : plan ≠ "")
    (s3 : String) (l3 : List MsgPart)
    (v repl s1 s2 : List Char) (hv : v ≠ []) (hocc : v <:+: s1) (hnocc : ¬ v <:+: s2) :
    (addStateMessage mm msg).history
        = mm.history ++ [{ msg with content := redactContent sd msg.content }] ∧
    redactContent sd (.str s3) = .str (redactString sd s3) ∧
    redactContent sd (.parts l3) = .parts (l3.map fun p => match p with
        | MsgPart.text t => MsgPart.text (redactString sd t)
        | MsgPart.image u => MsgPart.image u) ∧
    (addNewTask mm task).history
        = mm.history ++ [{ role := "user", content := .str ("New task: " ++ task) }] ∧
    (addModelOutput mm serialized).history
        = mm.history ++ [{ role := "assistant", content := .str serialized }] ∧
    (addPlan mm (some plan) (-1)).history
        = mm.history ++ [{ role := "user", content := .str ("Plan: " ++ plan) }] ∧
    repl <:+: replaceAllAux v repl s1.length s1 ∧
    replaceAllAux v repl s2.length s2 = s2 := by
  refine ⟨?_, rfl, rfl, rfl, rfl, ?_, ?_, ?_⟩
  · simp [addStateMessage, hsd, _addMessageWithTokens]
  · simp [addPlan, hplan, _addMessageWithTokens]
  · exact replaceAllAux_infix_repl v repl hv s1.length s1 le_rfl hocc
  · exact replaceAllAux_of_no_occurrence v repl s2.length s2 hnocc

/-- Concrete sensitive-data mapping for the C7 witness. -/
def wSD : List (String × String) := [("apiKey", "hunter2")]

/-- Concrete manager with sensitive data configured, for the C7 witness. -/
def wMMsd : MessageManager :=
  { wMM with settings := { wMM.settings with sensitiveData := some wSD } }

/-- Concrete state message holding the sensitive value, for the C7 witness. -/
def wStateMsg : Message := { role := "user", content := .str "value hunter2 here" }

/-- Witness for C7 at a concrete manager: the stored state message has the
sensitive value replaced by the bracketed label, and the concrete replacement
facts hold. -/
theorem redaction_literal_model_witness :
    (addStateMessage wMMsd wStateMsg).history
        = wMMsd.history ++ [{ role := "user", content := .str "value [REDACTED:apiKey] here" }] ∧
    "X".data <:+: replaceAllAux "ab".data "X".data 3 "zab".data ∧
    replaceAllAux "ab".data "X".data 2 "zz".data = "zz".data := by
  have h := redaction_literal_model wMMsd wSD rfl wStateMsg "t" "o" "p" (by decide)
    "s" [] "ab".data "X".data "zab".data "zz".data (by decide) (by decide) (by decide)
  refine ⟨?_, ?_, ?_⟩
  · rw [h.1]; decide
  · simpa using h.2.2.2.2.2.2.1
  · simpa using h.2.2.2.2.2.2.2

/-! ## The planner insertion point in Agent.step (C5) -/

/-- The planner fragment of `Agent.step` (utils.js 586-596): the state message
is appended first; then, when a planner model is configured and the step
counter is a multiple of the planner interval, the plan is added through
`addPlan(plan, -1)`. -/
def stepPlannerFragment (plannerConfigured : Bool) (nSteps plannerInterval : Nat)
    (mm : MessageManager) (stateMessage : Message) (plan : Option String) :
    MessageManager :=
  let mm1 := addStateMessage mm stateMessage
  if plannerConfigured ∧ nSteps % plannerInterval = 0 then addPlan mm1 plan (-1)
  else mm1

/-- C5 (code bug evidence): with a planner configured and due, the plan
message ends up appended at the end of the history, after the just-appended
state message — not inserted immediately before it. `addPlan` receives
position -1 and its -1 branch calls `_addMessageWithTokens`, which pushes at
the end, although the call site comment in the source reads: Add plan before
last state message. The history here ends with the state message followed by
the plan message; the claim requires the opposite order. -/
theorem addPlan_appends_after_state_message :
    (stepPlannerFragment true 2 1 wMM wStateMsg (some "go")).history
        = wMM.history ++ [wStateMsg, { role := "user", content := .str "Plan: go" }] ∧
    (stepPlannerFragment true 2 1 wMM wStateMsg (some "go")).history.getLast? ≠
        some wStateMsg := by
  constructor
  · decide
  · decide

/-! ## The token-limit branch of the step error handler (C6) -/

/-- The slice of the Agent state touched by the token-limit branch of
`_handleStepError`: the agent settings ceiling, the consecutive-failure
counter, and the message manager. -/
structure AgentErrorState where
  settingsMaxInputTokens : Int
  consecutiveFailures : Int
  messageManager : MessageManager
deriving DecidableEq, Repr

/-- The token-limit branch of `_handleStepError` (utils.js 717-730): for a
validation error whose formatted message contains the marker
Max token limit reached, the handler sets the message-manager settings
ceiling to the agent settings ceiling minus 500, calls `cutMessages`, and
increments the consecutive-failure counter. `cutMessages` itself compares
against `state.maxTokens` (service.js 250 and 286), which this branch leaves
untouched. -/
def handleMaxTokenLimitError (a : AgentErrorState) : AgentErrorState :=
  let mm1 := { a.messageManager with
    settings := { a.messageManager.settings with
      maxInputTokens := a.settingsMaxInputTokens - 500 } }
  let mm2 := cutMessages mm1
  { a with messageManager := mm2,
           consecutiveFailures := a.consecutiveFailures + 1 }

/-- Concrete system message for the C6 evidence (4 characters, 1 token). -/
def wSys520 : Message := { role := "system", content := .str "abcd" }

/-- Concrete task message for the C6 evidence (4 characters, 1 token). -/
def wTask520 : Message := { role := "user", content := .str "efgh" }

/-- Concrete droppable state message for the C6 evidence (80 characters, 20
tokens). -/
def wBig520 : Message :=
  { role := "user",
    content := .str "01234567890123456789012345678901234567890123456789012345678901234567890123456789" }

/-- Concrete manager for the C6 evidence: constructed ceiling 520 recorded in
`state.maxTokens`, running total 22. -/
def wMM520 : MessageManager :=
  { settings := { maxInputTokens := 520, messageContext := none,
                  sensitiveData := none, availableFilePaths := none },
    history := [wSys520, wTask520, wBig520], currentTokens := 22, maxTokens := 520 }

/-- Concrete agent state for the C6 evidence. -/
def wAgent : AgentErrorState :=
  { settingsMaxInputTokens := 520, consecutiveFailures := 0, messageManager := wMM520 }

/-- C6 (code bug evidence): after the token-limit branch runs, the settings
ceiling is reduced to 20, but the re-trim is a no-op — the history and the
recorded total of 22 are unchanged, because `cutMessages` compares against the
untouched `state.maxTokens` of 520 — so the retained messages do not fit under
the reduced ceiling even though dropping the droppable third message (20
tokens) would leave 2 ≤ 20. The consecutive-failure counter is incremented. -/
theorem handleMaxTokenError_no_effective_retrim :
    (handleMaxTokenLimitError wAgent).messageManager.settings.maxInputTokens = 20 ∧
    (handleMaxTokenLimitError wAgent).messageManager.history = wMM520.history ∧
    (handleMaxTokenLimitError wAgent).messageManager.currentTokens = 22 ∧
    (handleMaxTokenLimitError wAgent).messageManager.currentTokens >
      (handleMaxTokenLimitError wAgent).messageManager.settings.maxInputTokens ∧
    estimateTokens wSys520.content + estimateTokens wTask520.content ≤ 20 ∧
    (handleMaxTokenLimitError wAgent).consecutiveFailures = 1 := by
  refine ⟨?_, ?_, ?_, ?_, ?_, ?_⟩ <;> decide

/-! ## DOM data model (dom/views.js)

A DOM node is an element node or a text node. Element fields follow the
DOMElementNode constructor (views.js 80-136); the parent back-reference of the
source is not stored — functions that need the ancestor chain receive it as
an explicit context argument. Children of a parsed element are the wired
child nodes. -/

structure ElemData where
  tagName : String
  xpath : String
  attributes : List (String × String)
  highlightIndex : Option Int
  isVisible : Bool
  isInteractive : Bool
  isTopElement : Bool
  isInViewport : Bool
  shadowRoot : Bool
deriving DecidableEq, Repr

inductive DOMNode where
  | element (d : ElemData) (children : List DOMNode)
  | text (isVisible : Bool) (t : String)
deriving Repr

mutual

def DOMNode.beq : DOMNode → DOMNode → Bool
  | .text v t, .text w u => v == w && t == u
  | .element d c, .element e k => d == e && DOMNode.beqs c k
  | _, _ => false

def DOMNode.beqs : List DOMNode → List DOMNode → Bool
  | [], [] => true
  | x :: xs, y :: ys => DOMNode.beq x y && DOMNode.beqs xs ys
  | _, _ => false

end

mutual

theorem DOMNode.beq_iff : ∀ a b : DOMNode, DOMNode.beq a b = true ↔ a = b
  | .text v t, .text w u => by simp [DOMNode.beq]
  | .element d c, .element e k => by simp [DOMNode.beq, DOMNode.beqs_iff c k]
  | .text _ _, .element _ _ => by simp [DOMNode.beq]
  | .element _ _, .text _ _ => by simp [DOMNode.beq]

theorem DOMNode.beqs_iff : ∀ a b : List DOMNode, DOMNode.beqs a b = true ↔ a = b
  | [], [] => by simp [DOMNode.beqs]
  | x :: xs, y :: ys => by simp [DOMNode.beqs, DOMNode.beq_iff x y, DOMNode.beqs_iff xs ys]
  | [], _ :: _ => by simp [DOMNode.beqs]
  | _ :: _, [] => by simp [DOMNode.beqs]

end

instance : DecidableEq DOMNode := fun a b => decidable_of_iff _ (DOMNode.beq_iff a b)

/-- The highlight index of a node: the `highlightIndex` field for an element
node, none for a text node (text nodes carry no such property). -/
def DOMNode.elemHighlightIndex : DOMNode → Option Int
  | .element d _ => d.highlightIndex
  | .text _ _ => none

mutual

/-- All nodes of a tree in document order: the node itself followed by the
nodes of its children, left to right. -/
def collectNodes : DOMNode → List DOMNode
  | .text v t => [.text v t]
  | .element d kids => .element d kids :: collectNodesList kids

def collectNodesList : List DOMNode → List DOMNode
  | [] => []
  | c :: cs => collectNodes c ++ collectNodesList cs

end

/-- A node of a subtree list is a node of one of its members. -/
theorem mem_collectNodesList {n : DOMNode} :
    ∀ {l : List DOMNode}, n ∈ collectNodesList l ↔ ∃ c ∈ l, n ∈ collectNodes c
  | [] => by simp [collectNodesList]
  | c :: cs => by
      simp [collectNodesList, mem_collectNodesList (l := cs)]

/-- Every tree contains itself. -/
theorem self_mem_collectNodes : ∀ t : DOMNode, t ∈ collectNodes t
  | .text v t => by simp [collectNodes]
  | .element d kids => by simp [collectNodes]

mutual

/-- Containment of subtrees is transitive through `collectNodes`. -/
theorem collectNodes_trans : ∀ t t2 : DOMNode, t2 ∈ collectNodes t →
    ∀ x ∈ collectNodes t2, x ∈ collectNodes t
  | .text v t, t2, h, x, hx => by
      simp [collectNodes] at h
      subst h
      simpa [collectNodes] using hx
  | .element d kids, t2, h, x, hx => by
      simp only [collectNodes, List.mem_cons] at h ⊢
      rcases h with h | h
      · subst h
        simpa [collectNodes] using hx
      · exact .inr (collectNodesList_trans kids t2 h x hx)

theorem collectNodesList_trans : ∀ (l : List DOMNode) (t2 : DOMNode),
    t2 ∈ collectNodesList l → ∀ x ∈ collectNodes t2, x ∈ collectNodesList l
  | [], t2, h, x, hx => by simp [collectNodesList] at h
  | c :: cs, t2, h, x, hx => by
      simp only [collectNodesList, List.mem_append] at h ⊢
      rcases h with h | h
      · exact .inl (collectNodes_trans c t2 h x hx)
      · exact .inr (collectNodesList_trans cs t2 h x hx)

end

/-! ## The element identity hash of dom/views.js (C10)

The `hash` getter of DOMElementNode (views.js 180-191) is a local placeholder
implementation, not the history-processor hash: its branch path component is
the tag name and the child count only. -/

structure HashedDomElement where
  branchPathHash : String
  attributesHash : String
  xpathHash : String
deriving DecidableEq, Repr

/-- The DOMElementNode `hash` getter (views.js 180-191). -/
def domElementHash (d : ElemData) (children : List DOMNode) : HashedDomElement :=
  { branchPathHash := "branch-" ++ d.tagName ++ "-" ++ toString children.length,
    attributesHash := "attr-" ++ String.intercalate "-" (d.attributes.map Prod.fst),
    xpathHash := "xpath-" ++ d.xpath }

/-- C10: the branchPathHash read by the batch-stop check of `multiAct` is the
string branch-tagName-childCount, so any two element nodes with the same tag
name and the same number of children — whatever their attributes, xpath or
highlight index — produce the same branchPathHash. -/
theorem domElementHash_branchPathHash_spec (d1 d2 : ElemData)
    (c1 c2 : List DOMNode) (htag : d1.tagName = d2.tagName)
    (hlen : c1.length = c2.length) :
    (domElementHash d1 c1).branchPathHash
        = "branch-" ++ d1.tagName ++ "-" ++ toString c1.length ∧
    (domElementHash d1 c1).branchPathHash = (domElementHash d2 c2).branchPathHash := by
  constructor
  · rfl
  · simp [domElementHash, htag, hlen]

/-- Witness for C10: two elements with tag div and no children but different
attributes, xpath and highlight index share a branchPathHash. -/
theorem domElementHash_branchPathHash_spec_witness :
    (domElementHash
        { tagName := "div", xpath := "/html/body/div[1]",
          attributes := [("id", "a")], highlightIndex := some 3,
          isVisible := true, isInteractive := true, isTopElement := false,
          isInViewport := true, shadowRoot := false } []).branchPathHash
      = (domElementHash
        { tagName := "div", xpath := "/other/path",
          attributes := [("class", "b"), ("id", "c")], highlightIndex := none,
          isVisible := false, isInteractive := false, isTopElement := true,
          isInViewport := false, shadowRoot := true } []).branchPathHash ∧
    (domElementHash
        { tagName := "div", xpath := "/html/body/div[1]",
          attributes := [("id", "a")], highlightIndex := some 3,
          isVisible := true, isInteractive := true, isTopElement := false,
          isInViewport := true, shadowRoot := false } []).branchPathHash
      = "branch-div-0" := by
  have h := domElementHash_branchPathHash_spec
    { tagName := "div", xpath := "/html/body/div[1]",
      attributes := [("id", "a")], highlightIndex := some 3,
      isVisible := true, isInteractive := true, isTopElement := false,
      isInViewport := true, shadowRoot := false }
    { tagName := "div", xpath := "/other/path",
      attributes := [("class", "b"), ("id", "c")], highlightIndex := none,
      isVisible := false, isInteractive := false, isTopElement := true,
      isInViewport := false, shadowRoot := true }
    [] [] rfl rfl
  exact ⟨h.2, h.1⟩

/-! ## Action batch dispatch: Agent.multiAct (utils.js 1347-1455) -/

/-- ActionResult (agent/views.js 165-187). -/
structure ActionResult where
  isDone : Bool := false
  success : Option Bool := none
  extractedContent : Option String := none
  error : Option String := none
  includeInMemory : Bool := false
deriving DecidableEq, Repr

/-- The slice of an action visible to `multiAct`: whether the action exposes a
`getIndex` accessor at all, and, when it does, the index it returns (`none`
models a null return). -/
structure MAAction where
  hasGetIndex : Bool
  index : Option Int
deriving DecidableEq, Repr

/-- The path-hash set `multiAct` derives from a selector map (utils.js
1353-1355 and 1366-1368): map each value to `hash?.branchPathHash` and keep
the truthy results. Selector-map values are element nodes, whose hash getter
always yields a branch- prefixed string; a non-element value would contribute
`undefined`, modelled as the empty string, and be filtered out. -/
def selectorMapPathHashes (values : List DOMNode) : List String :=
  (values.map fun n => match n with
    | .element d c => (domElementHash d c).branchPathHash
    | .text _ _ => "").filter (fun s => s ≠ "")

/-- `Agent._isSubset` (utils.js 1448-1455): every member of `a` is a member
of `b`. The source iterates JS Sets built from the hash lists; membership in
the Set equals membership in the underlying list. -/
def isSubsetL (a b : List String) : Bool :=
  a.all fun x => b.contains x

/-- The informational result pushed when the batch stops on new elements
(utils.js 1372-1377): 0-based loop index over total batch size. -/
def newElementsInfo (i total : Nat) : ActionResult :=
  { extractedContent := some ("Something new appeared after action "
      ++ toString i ++ " / " ++ toString total),
    includeInMemory := true }

/-- The loop body of `multiAct` (utils.js 1360-1436) from position `i` with
the remaining actions. `states k` is the selector-map value list returned by
the k-th `browserContext.getState()` call (call 0 happens before the loop and
feeds the cached hash set; call `i + 1` happens at the top of iteration `i`).
`exec i` is the result of dispatching action `i`; a controller throw is
modelled by a result carrying its error message, matching the catch block
(utils.js 1424-1434). The external pause check is modelled as passing. -/
def multiActLoop (check : Bool) (cached : List String) (states : Nat → List DOMNode)
    (exec : Nat → ActionResult) (total : Nat) :
    List MAAction → Nat → List ActionResult
  | [], _ => []
  | a :: rest, i =>
      if a.hasGetIndex && a.index.isSome && (i != 0) && check &&
          !(isSubsetL (selectorMapPathHashes (states (i + 1))) cached) then
        [newElementsInfo i total]
      else
        let r := exec i
        if r.isDone || r.error.isSome || (i == total - 1) then [r]
        else r :: multiActLoop check cached states exec total rest (i + 1)

/-- `Agent.multiAct` (utils.js 1347-1439): capture the cached hash set from
the state at batch start, then run the loop from position 0. -/
def multiAct (actions : List MAAction) (check : Bool) (states : Nat → List DOMNode)
    (exec : Nat → ActionResult) : List ActionResult :=
  multiActLoop check (selectorMapPathHashes (states 0)) states exec
    actions.length actions 0

/-- First concrete element for the C1 scenario: tag a, no children. -/
def ce1 : DOMNode :=
  .element { tagName := "a", xpath := "/a", attributes := [],
             highlightIndex := some 0, isVisible := true, isInteractive := true,
             isTopElement := true, isInViewport := true, shadowRoot := false } []

/-- Second concrete element for the C1 scenario: tag b, no children. -/
def ce2 : DOMNode :=
  .element { tagName := "b", xpath := "/b", attributes := [],
             highlightIndex := some 1, isVisible := true, isInteractive := true,
             isTopElement := true, isInViewport := true, shadowRoot := false } []

/-- Concrete batch of two index-declaring actions for the C1 counterexample. -/
def cActs2 : List MAAction :=
  [{ hasGetIndex := true, index := some 0 }, { hasGetIndex := true, index := some 1 }]

/-- Concrete state sequence for the C1 counterexample: element ce2 disappears
after the batch starts, nothing new appears. -/
def cStatesDrop : Nat → List DOMNode := fun k => if k = 0 then [ce1, ce2] else [ce1]

/-- Concrete executor: action i succeeds and reports ran-i. -/
def cExec : Nat → ActionResult := fun i =>
  { extractedContent := some ("ran-" ++ toString i) }

/-- C1 as stated is false: before action 1, the fresh hash set (one hash) is
not a superset of the cached set (two hashes) — an element disappeared — yet
the batch does not stop: `multiAct` checks whether the fresh set is a subset
of the cached one, and here it is, so action 1 is dispatched and both results
are ordinary action results with no informational entry. -/
theorem multiAct_not_superset_counterexample :
    isSubsetL (selectorMapPathHashes (cStatesDrop 0))
        (selectorMapPathHashes (cStatesDrop 1)) = false ∧
    multiAct cActs2 true cStatesDrop cExec = [cExec 0, cExec 1] := by
  constructor
  · decide
  · decide

/-- Loop lemma for the amended C1: if every position before `i + dj` runs
clean (no done, no error, and any index-declaring action past position 0 sees
a fresh hash set that is a subset of the cached one) and position `i + dj`
declares an index while its fresh hash set is not a subset of the cached one,
the loop dispatches exactly the actions before `i + dj` and then stops with
the informational result. -/
theorem multiActLoop_stops_aux (cached : List String) (states : Nat → List DOMNode)
    (exec : Nat → ActionResult) (total : Nat) :
    ∀ (rest : List MAAction) (i dj : Nat),
      i + rest.length = total →
      dj < rest.length →
      (∀ k < dj, (exec (i + k)).isDone = false ∧ (exec (i + k)).error = none) →
      (∀ k < dj, ∀ ak : MAAction, rest[k]? = some ak → i + k ≠ 0 →
          ak.hasGetIndex = true → ak.index.isSome = true →
          isSubsetL (selectorMapPathHashes (states (i + k + 1))) cached = true) →
      i + dj ≠ 0 →
      ∀ aj : MAAction, rest[dj]? = some aj → aj.hasGetIndex = true →
      aj.index.isSome = true →
      isSubsetL (selectorMapPathHashes (states (i + dj + 1))) cached = false →
      multiActLoop true cached states exec total rest i
        = (List.range' i dj).map exec ++ [newElementsInfo (i + dj) total]
  | [], i, dj, hlen, hdj, _, _, _, _, _, _, _, _ => by simp at hdj
  | a :: rs, i, dj, hlen, hdj, hok, hprev, hne, aj, haj, hhas, hidx, hnew => by
      cases dj with
      | zero =>
          have ha : a = aj := by simpa using haj
          subst ha
          have hi0 : (i != 0) = true := by simpa using hne
          simp only [multiActLoop, hhas, hidx, hi0, hnew, Bool.and_true, Bool.true_and,
            Bool.not_false, Bool.and_self, if_true, List.range', List.map_nil,
            List.nil_append, Nat.add_zero]
      | succ k =>
          have hcond : (a.hasGetIndex && a.index.isSome && (i != 0) && true &&
              !(isSubsetL (selectorMapPathHashes (states (i + 1))) cached)) = false := by
            by_cases hi : i = 0
            · subst hi; simp
            · by_cases hg : a.hasGetIndex = true
              · by_cases hs : a.index.isSome = true
                · have := hprev 0 (Nat.succ_pos k) a (by simp) (by simpa using hi) hg hs
                  simp [hg, hs, hi, this]
                · simp [Bool.eq_false_iff.mpr hs]
              · simp [Bool.eq_false_iff.mpr hg]
          have hr := hok 0 (Nat.succ_pos k)
          have hr1 : (exec (i + 0)).isDone = false := hr.1
          have hr2 : ((exec (i + 0)).error).isSome = false := by
            rw [hr.2]; rfl
          have hlast : (i == total - 1) = false := by
            have hk : k < rs.length := by simpa using hdj
            have hlen2 : i + (rs.length + 1) = total := by simpa using hlen
            simp only [beq_eq_false_iff_ne, ne_eq]
            omega
          rw [multiActLoop, hcond]
          simp only [Bool.false_eq_true, if_false]
          rw [Nat.add_zero] at hr1 hr2
          rw [hr1, hr2, hlast]
          simp only [Bool.or_self, Bool.false_or, Bool.or_false, Bool.false_eq_true, if_false]
          have ih := multiActLoop_stops_aux cached states exec total rs (i + 1) k
            (by simp only [List.length_cons] at hlen; omega)
            (by simpa using hdj)
            (fun k2 hk2 => by
              have := hok (k2 + 1) (by omega)
              simpa [Nat.add_assoc, Nat.add_comm, Nat.add_left_comm] using this)
            (fun k2 hk2 ak hak hne2 hg hs => by
              have := hprev (k2 + 1) (by omega) ak (by simpa using hak)
                (by omega) hg hs
              simpa [Nat.add_assoc, Nat.add_comm, Nat.add_left_comm] using this)
            (by omega)
            aj (by simpa using haj) hhas hidx
            (by
              have : i + 1 + k + 1 = i + (k + 1) + 1 := by omega
              rw [this]; exact hnew)
          rw [ih]
          have hr' : List.range' i (k + 1) = i :: List.range' (i + 1) k := List.range'_succ i k 1
          rw [hr']
          simp only [List.map_cons, List.cons_append]
          have : i + 1 + k = i + (k + 1) := by omega
          rw [this]

/-- C1 (amended): with checkForNewElements enabled, if every action before
position `j` runs without done or error and every index-declaring action
among them sees a fresh hash set that is still a subset of the cached one,
while action `j` (past the first) declares a non-null index and the fresh
hash set before it is NOT a subset of the cached set — a new element hash
appeared — then the batch dispatches exactly actions 0 to j-1, appends the
single informational result for position j, and never dispatches any later
action. The claim as frozen states the stop condition as the fresh set not
being a superset of the cached set; the counterexample above shows the code
stops on the not-a-subset direction instead. -/
theorem multiAct_stops_on_new_elements (actions : List MAAction)
    (states : Nat → List DOMNode) (exec : Nat → ActionResult) (j : Nat)
    (hj0 : 0 < j) (hjlen : j < actions.length)
    (hok : ∀ k < j, (exec k).isDone = false ∧ (exec k).error = none)
    (hprev : ∀ k < j, ∀ ak : MAAction, actions[k]? = some ak → 0 < k →
        ak.hasGetIndex = true → ak.index.isSome = true →
        isSubsetL (selectorMapPathHashes (states (k + 1)))
          (selectorMapPathHashes (states 0)) = true)
    (aj : MAAction) (haj : actions[j]? = some aj) (hhas : aj.hasGetIndex = true)
    (hidx : aj.index.isSome = true)
    (hnew : isSubsetL (selectorMapPathHashes (states (j + 1)))
        (selectorMapPathHashes (states 0)) = false) :
    multiAct actions true states exec
      = (List.range j).map exec ++ [newElementsInfo j actions.length] := by
  have h := multiActLoop_stops_aux (selectorMapPathHashes (states 0)) states exec
    actions.length actions 0 j (by simp) hjlen
    (fun k hk => by simpa using hok k hk)
    (fun k hk ak hak hne hg hs => by
      have := hprev k hk ak hak (Nat.pos_of_ne_zero (by simpa using hne)) hg hs
      simpa using this)
    (by omega) aj haj hhas hidx (by simpa using hnew)
  simpa [multiAct, List.range_eq_range'] using h

/-- Concrete batch of three index-declaring actions for the C1 witness. -/
def cActs3 : List MAAction :=
  [{ hasGetIndex := true, index := some 0 }, { hasGetIndex := true, index := some 1 },
   { hasGetIndex := true, index := some 2 }]

/-- Concrete state sequence for the C1 witness: element ce2 appears after the
batch starts, so a new hash shows up from the second state capture on. -/
def cStatesNew : Nat → List DOMNode := fun k => if k = 0 then [ce1] else [ce1, ce2]

/-- Witness for the amended C1 at the claim scenario: a batch of 3 where
action 1 requires an index and a new element hash appears after action 0 (the
first action) — the batch executes action 0, stops with the single
informational result for position 1, and action 2 never runs. -/
theorem multiAct_stops_on_new_elements_witness :
    multiAct cActs3 true cStatesNew cExec = [cExec 0, newElementsInfo 1 3] ∧
    (newElementsInfo 1 3).extractedContent
      = some "Something new appeared after action 1 / 3" := by
  constructor
  · have h := multiAct_stops_on_new_elements cActs3 cStatesNew cExec 1 (by decide)
      (by decide) (by decide)
      (fun k hk ak hak hpos => absurd hpos (by omega))
      { hasGetIndex := true, index := some 1 } (by decide) (by decide) (by decide)
      (by decide)
    simpa using h
  · decide

/-! ## History tree processor (dom/history_tree_processor/service.js)

`_createHash` is md5 in the source; it is modelled as the identity encoding
of its input string, i.e. as an injective fingerprint — md5 collisions are
outside the model. The parent back-reference walk of `_getParentBranchPath`
is modelled by passing the ancestor path components (root first, exactly the
order the source produces by prepending while walking upwards) as an explicit
context. -/

def _createHash (input : String) : String := input

/-- One component of the parent branch path (service.js 140): tag name and
highlight index, or the text null for an unindexed element. -/
def branchPathComponent (d : ElemData) : String :=
  d.tagName ++ ":" ++ (match d.highlightIndex with
    | some h => toString h
    | none => "null")

/-- `_parentBranchPathHash` (service.js 153-155): join with the arrow
separator, then hash. -/
def _parentBranchPathHash (path : List String) : String :=
  _createHash (String.intercalate "->" path)

/-- Insertion of a key into a sorted key list, for the default lexicographic
`Array.prototype.sort` of the attribute keys. -/
def insertSortedKey (k : String) : List String → List String
  | [] => [k]
  | x :: xs => if k ≤ x then k :: x :: xs else x :: insertSortedKey k xs

/-- Ascending insertion sort of the attribute keys (service.js 164: default
lexicographic sort). -/
def sortKeys : List String → List String
  | [] => []
  | x :: xs => insertSortedKey x (sortKeys xs)

/-- Attribute access `attributes[key]` on the association list. -/
def attrLookup (attrs : List (String × String)) (k : String) : String :=
  match attrs.find? (fun e => e.1 == k) with
  | some e => e.2
  | none => ""

/-- `_attributesHash` (service.js 163-167): keys sorted, serialized as
key:value joined by semicolons, then hashed. -/
def _attributesHash (attrs : List (String × String)) : String :=
  _createHash (String.intercalate ";"
    ((sortKeys (attrs.map Prod.fst)).map (fun k => k ++ ":" ++ attrLookup attrs k)))

/-- `_xpathHash` (service.js 175-177). -/
def _xpathHash (xpath : String) : String := _createHash xpath

/-- `_hashDomElement` (service.js 119-126) for an element whose ancestor
chain has the path components `anc` (root first). -/
def hashAt (anc : List String) (d : ElemData) : HashedDomElement :=
  { branchPathHash := _parentBranchPathHash (anc ++ [branchPathComponent d]),
    attributesHash := _attributesHash d.attributes,
    xpathHash := _xpathHash d.xpath }

/-- DOMHistoryElement (history_tree_processor/view.js 110-145), restricted to
the fields the claims touch. -/
structure DOMHistoryElement where
  tagName : String
  xpath : String
  highlightIndex : Option Int
  entireParentBranchPath : List String
  attributes : List (String × String)
  shadowRoot : Bool
  cssSelector : String
deriving DecidableEq, Repr

/-- `convertDomElementToHistoryElement` (service.js 21-44) for an element
with ancestor path components `anc`. -/
def convertDomElementToHistoryElement (anc : List String) (d : ElemData) :
    DOMHistoryElement :=
  { tagName := d.tagName, xpath := d.xpath, highlightIndex := d.highlightIndex,
    entireParentBranchPath := anc ++ [branchPathComponent d],
    attributes := d.attributes, shadowRoot := d.shadowRoot,
    cssSelector := d.tagName ++ (match d.highlightIndex with
      | some h => "[data-highlight=\"" ++ toString h ++ "\"]"
      | none => "") }

/-- `_hashDomHistoryElement` (service.js 105-111). -/
def _hashDomHistoryElement (he : DOMHistoryElement) : HashedDomElement :=
  { branchPathHash := _parentBranchPathHash he.entireParentBranchPath,
    attributesHash := _attributesHash he.attributes,
    xpathHash := _xpathHash he.xpath }

mutual

/-- The `processNode` walk of `findHistoryElementInTree` (service.js 55-77):
fingerprint each indexed element in document order, return the first whose
three hash components all match, descend only into element children. The
result carries the ancestor path along with the node so that the identity of
the returned element (its position in the tree) is visible. -/
def findNodeInTree (target : HashedDomElement) (anc : List String) :
    DOMNode → Option (List String × DOMNode)
  | .text _ _ => none
  | .element d kids =>
      if d.highlightIndex.isSome && (hashAt anc d == target) then
        some (anc, .element d kids)
      else findNodeInList target (anc ++ [branchPathComponent d]) kids

def findNodeInList (target : HashedDomElement) (anc : List String) :
    List DOMNode → Option (List String × DOMNode)
  | [] => none
  | c :: cs =>
      match findNodeInTree target anc c with
      | some r => some r
      | none => findNodeInList target anc cs

end

/-- `findHistoryElementInTree` (service.js 52-80). -/
def findHistoryElementInTree (he : DOMHistoryElement) (tree : DOMNode) :
    Option (List String × DOMNode) :=
  findNodeInTree (_hashDomHistoryElement he) [] tree

mutual

/-- All elements of a tree in document order, each with the ancestor path
components of its parent chain (root first) and its child list. -/
def elementsWithAnc (anc : List String) : DOMNode →
    List (List String × ElemData × List DOMNode)
  | .text _ _ => []
  | .element d kids => (anc, d, kids) :: elementsWithAncList (anc ++ [branchPathComponent d]) kids

def elementsWithAncList (anc : List String) : List DOMNode →
    List (List String × ElemData × List DOMNode)
  | [] => []
  | c :: cs => elementsWithAnc anc c ++ elementsWithAncList anc cs

end

/-- The match predicate of the walk: indexed and fingerprint equal. -/
def matchesTarget (target : HashedDomElement)
    (e : List String × ElemData × List DOMNode) : Bool :=
  e.2.1.highlightIndex.isSome && (hashAt e.1 e.2.1 == target)

mutual

/-- The walk returns exactly the first document-order element matching the
target fingerprint. -/
theorem findNodeInTree_eq (target : HashedDomElement) :
    ∀ (anc : List String) (t : DOMNode),
      findNodeInTree target anc t
        = ((elementsWithAnc anc t).find? (matchesTarget target)).map
            (fun e => (e.1, DOMNode.element e.2.1 e.2.2))
  | anc, .text v t => by simp [findNodeInTree, elementsWithAnc]
  | anc, .element d kids => by
      rw [findNodeInTree, elementsWithAnc]
      by_cases hm : (d.highlightIndex.isSome && (hashAt anc d == target)) = true
      · rw [if_pos hm, List.find?_cons_of_pos _ (by simpa [matchesTarget] using hm)]
        rfl
      · rw [if_neg (by simpa using hm),
          List.find?_cons_of_neg _ (by simpa [matchesTarget] using hm)]
        exact findNodeInList_eq target (anc ++ [branchPathComponent d]) kids

theorem findNodeInList_eq (target : HashedDomElement) :
    ∀ (anc : List String) (l : List DOMNode),
      findNodeInList target anc l
        = ((elementsWithAncList anc l).find? (matchesTarget target)).map
            (fun e => (e.1, DOMNode.element e.2.1 e.2.2))
  | anc, [] => by simp [findNodeInList, elementsWithAncList]
  | anc, c :: cs => by
      rw [findNodeInList, elementsWithAncList, List.find?_append]
      rw [findNodeInTree_eq target anc c]
      cases hc : (elementsWithAnc anc c).find? (matchesTarget target) with
      | none => simpa [hc] using findNodeInList_eq target anc cs
      | some e => simp [hc]

end

/-- `find?` returns the unique matching member of a list. -/
theorem find?_eq_of_unique {α : Type} (p : α → Bool) (l : List α) (x : α)
    (hx : x ∈ l) (hpx : p x = true)
    (huniq : ∀ y ∈ l, p y = true → y = x) : l.find? p = some x := by
  have hsome : (l.find? p).isSome := List.find?_isSome.mpr ⟨x, hx, hpx⟩
  obtain ⟨y, hy⟩ := Option.isSome_iff_exists.mp hsome
  have hpy := List.find?_some hy
  have hmy := List.mem_of_find?_eq_some hy
  rw [hy, huniq y hmy hpy]

/-- C4 (amended): for every tree containing the element from which the
history record was derived, `findHistoryElementInTree` applied to that record
returns that same element — its ancestor path and subtree — provided the
element carries a non-null highlightIndex (the walk fingerprints only indexed
nodes) and no other indexed element of the tree carries the same fingerprint
triple (the walk returns the first match in document order). -/
theorem findHistoryElementInTree_roundtrip (tree : DOMNode) (anc : List String)
    (d : ElemData) (kids : List DOMNode)
    (hmem : (anc, d, kids) ∈ elementsWithAnc [] tree)
    (hidx : d.highlightIndex.isSome = true)
    (huniq : ∀ e ∈ elementsWithAnc [] tree, e.2.1.highlightIndex.isSome = true →
        hashAt e.1 e.2.1 = hashAt anc d → e = (anc, d, kids)) :
    findHistoryElementInTree (convertDomElementToHistoryElement anc d) tree
      = some (anc, DOMNode.element d kids) := by
  have htarget : _hashDomHistoryElement (convertDomElementToHistoryElement anc d)
      = hashAt anc d := rfl
  rw [findHistoryElementInTree, htarget, findNodeInTree_eq]
  rw [find?_eq_of_unique (matchesTarget (hashAt anc d)) _ (anc, d, kids) hmem
    (by simp [matchesTarget, hidx])
    (fun y hy hpy => by
      simp only [matchesTarget, Bool.and_eq_true, beq_iff_eq] at hpy
      exact huniq y hy hpy.1 hpy.2)]
  rfl

/-- Concrete unindexed element for the C4 counterexample. -/
def cd0 : ElemData :=
  { tagName := "div", xpath := "/div", attributes := [("id", "x")],
    highlightIndex := none, isVisible := true, isInteractive := false,
    isTopElement := true, isInViewport := true, shadowRoot := false }

/-- Concrete one-node tree for the C4 counterexample. -/
def ctreeC4 : DOMNode := .element cd0 []

/-- C4 as stated is false: the tree contains exactly the element the record
was derived from, yet the search returns null, because the walk fingerprints
only nodes with a non-null highlightIndex and this element is unindexed. -/
theorem findHistoryElementInTree_unindexed_counterexample :
    ([], cd0, ([] : List DOMNode)) ∈ elementsWithAnc [] ctreeC4 ∧
    findHistoryElementInTree (convertDomElementToHistoryElement [] cd0) ctreeC4
      = none := by
  constructor
  · decide
  · decide

/-- Concrete root element (unindexed body) for the C4 witness. -/
def cdRoot : ElemData :=
  { tagName := "body", xpath := "/body", attributes := [],
    highlightIndex := none, isVisible := true, isInteractive := false,
    isTopElement := true, isInViewport := true, shadowRoot := false }

/-- Concrete indexed button element for the C4 witness. -/
def cdBtn : ElemData :=
  { tagName := "button", xpath := "/body/button", attributes := [("id", "s")],
    highlightIndex := some 0, isVisible := true, isInteractive := true,
    isTopElement := true, isInViewport := true, shadowRoot := false }

/-- Concrete two-node tree for the C4 witness. -/
def ctreeW : DOMNode := .element cdRoot [.element cdBtn []]

/-- Witness for the amended C4: converting the indexed button of a concrete
two-node tree and searching the same tree returns that button with its
ancestor path. -/
theorem findHistoryElementInTree_roundtrip_witness :
    findHistoryElementInTree
        (convertDomElementToHistoryElement ["body:null"] cdBtn) ctreeW
      = some (["body:null"], DOMNode.element cdBtn []) := by
  exact findHistoryElementInTree_roundtrip ctreeW ["body:null"] cdBtn []
    (by decide) (by decide)
    (by decide)

/-! ## DOM tree construction (unnamed/part_002, DomService) -/

/-- JavaScript String.prototype.trim on the character level. -/
def jsTrim (s : String) : String :=
  ⟨((s.data.dropWhile Char.isWhitespace).reverse.dropWhile Char.isWhitespace).reverse⟩

/-- One raw node of the evaluated page payload, with the fields `_parseNode`
reads (part_002, 1152-1206). A missing `text` is modelled as the empty string
(both are dropped by the whitespace check); a missing `tagName`, `xpath` or
flag is modelled by its source default; `highlightIndex` none models an
absent field; `children` is the raw child id list (a missing field behaves
like an empty list in both the parse and the wiring pass). The source field
named type is `nodeType` here. -/
structure RawNode where
  nodeType : String
  text : String
  isVisible : Bool
  tagName : String
  xpath : String
  attributes : List (String × String)
  isInteractive : Bool
  isTopElement : Bool
  isInViewport : Bool
  shadowRoot : Bool
  highlightIndex : Option Int
  children : List String
deriving DecidableEq, Repr

/-- `_parseNode` (part_002, 1152-1206): whitespace-only text nodes are
dropped (never materialized); other text nodes become text nodes; everything
else becomes an element node with empty children (wired later). Returns the
parsed node and the raw child ids. -/
def _parseNode (nd : RawNode) : Option DOMNode × List String :=
  if nd.nodeType = "TEXT_NODE" then
    if jsTrim nd.text = "" then (none, nd.children)
    else (some (.text nd.isVisible nd.text), nd.children)
  else
    (some (.element
      { tagName := nd.tagName, xpath := nd.xpath, attributes := nd.attributes,
        highlightIndex := nd.highlightIndex, isVisible := nd.isVisible,
        isInteractive := nd.isInteractive, isTopElement := nd.isTopElement,
        isInViewport := nd.isInViewport, shadowRoot := nd.shadowRoot } []),
     nd.children)

/-- Access `jsNodeMap[id]` on the payload association list (JS object keys
are unique; the first hit is the entry). -/
def lookupRaw (m : List (String × RawNode)) (id : String) : Option RawNode :=
  (m.find? (fun e => e.1 == id)).map (fun e => e.2)

/-- The wired subtree at a node id, combining pass 1 (`_parseNode` for every
entry) and pass 2 (the bottom-up wiring of part_002, 1099-1127): the children
of an element are its raw child ids, skipping empty ids and ids whose node is
absent from the parsed node map, each wired recursively in order. The source
mutates shared node objects; this functional reconstruction is faithful on
payloads whose child graph is acyclic, which the fuel argument enforces
structurally (fuel never runs out below the bound used by the theorems).
Children listed under a text node are dropped: the source pushes them into an
array no traversal ever reads. -/
def buildNode (m : List (String × RawNode)) : Nat → String → Option DOMNode
  | 0, _ => none
  | fuel + 1, id =>
      match lookupRaw m id with
      | none => none
      | some nd =>
          match (_parseNode nd).1 with
          | none => none
          | some (.text v t) => some (.text v t)
          | some (.element d _) =>
              some (.element d (nd.children.filterMap (fun cid =>
                if cid = "" then none else buildNode m fuel cid)))

/-- The selector map built in pass 1 (part_002, 1093-1095): every parsed
element node with a non-null highlightIndex is written under that index, in
payload order (so a duplicate index is last-write-wins); the stored value is
the node object, which pass 2 wires — here the wired subtree at that id. -/
def selectorMapOf (m : List (String × RawNode)) (fuel : Nat) :
    List (Int × DOMNode) :=
  m.filterMap (fun e =>
    match buildNode m fuel e.1 with
    | some (.element d kids) =>
        match d.highlightIndex with
        | some h => some (h, DOMNode.element d kids)
        | none => none
    | _ => none)

/-- Lookup in the selector map with JS object write semantics: the last entry
written under a key wins. -/
def smLookup (sm : List (Int × DOMNode)) (k : Int) : Option DOMNode :=
  (sm.reverse.find? (fun e => e.1 == k)).map (fun e => e.2)

/-- The evaluated page payload as `_constructDomTree` receives it: a falsy
`rootId` or `map` (absent field, null payload) is `none`. -/
structure EvalPage where
  rootId : Option String
  map : Option (List (String × RawNode))

/-- The placeholder root returned for malformed payloads (part_002,
1070-1071): a body element with no attributes, no children and no index. -/
def placeholderRoot : DOMNode :=
  .element { tagName := "body", xpath := "//body", attributes := [],
             highlightIndex := none, isVisible := false, isInteractive := false,
             isTopElement := false, isInViewport := false, shadowRoot := false } []

/-- `_constructDomTree` (part_002, 1066-1144): a payload without map or
rootId yields the placeholder root and an empty selector map; otherwise both
passes run; when the root id resolves to no parsed node the placeholder root
is returned next to the selector map built so far (the source returns the raw
`undefined` node when the raw entry exists but parsed to nothing; that corner
is mapped to the placeholder as well and is outside every claim). -/
def _constructDomTree (p : EvalPage) : DOMNode × List (Int × DOMNode) :=
  match p.map, p.rootId with
  | some m, some rid =>
      let fuel := m.length + 1
      let sm := selectorMapOf m fuel
      match buildNode m fuel rid with
      | some root => (root, sm)
      | none => (placeholderRoot, sm)
  | _, _ => (placeholderRoot, [])

/-- C8: for a malformed payload — missing the node map or missing the root
id — DOM tree construction does not fail: it returns the single placeholder
root element with an empty selector map. -/
theorem constructDomTree_malformed_placeholder (p : EvalPage)
    (h : p.map = none ∨ p.rootId = none) :
    _constructDomTree p = (placeholderRoot, []) := by
  rcases p with ⟨rootId, map⟩
  rcases h with h | h <;> simp only at h <;> subst h
  · rfl
  · cases map <;> rfl

/-- Witness for C8 on both malformed shapes: missing map, and missing root
id. -/
theorem constructDomTree_malformed_placeholder_witness :
    _constructDomTree { rootId := some "1", map := none } = (placeholderRoot, []) ∧
    _constructDomTree { rootId := none, map := some [] } = (placeholderRoot, []) := by
  exact ⟨constructDomTree_malformed_placeholder _ (.inl rfl),
         constructDomTree_malformed_placeholder _ (.inr rfl)⟩

/-- Concrete raw root for the C2 counterexample: an unindexed element with no
children. -/
def crRoot : RawNode :=
  { nodeType := "ELEMENT_NODE", text := "", isVisible := true, tagName := "body",
    xpath := "/body", attributes := [], isInteractive := false,
    isTopElement := true, isInViewport := true, shadowRoot := false,
    highlightIndex := none, children := [] }

/-- Concrete raw orphan for the C2 counterexample: an indexed element that no
node lists as a child. -/
def crOrphan : RawNode :=
  { nodeType := "ELEMENT_NODE", text := "", isVisible := true, tagName := "button",
    xpath := "/button", attributes := [], isInteractive := true,
    isTopElement := true, isInViewport := true, shadowRoot := false,
    highlightIndex := some 0, children := [] }

/-- Concrete payload for the C2 counterexample: the root has no children and
an indexed orphan node sits in the map unreferenced. -/
def cPayload : EvalPage :=
  { rootId := some "1", map := some [("1", crRoot), ("2", crOrphan)] }

/-- The orphan button as a parsed, wired node. -/
def cOrphanNode : DOMNode :=
  .element { tagName := "button", xpath := "/button", attributes := [],
             highlightIndex := some 0, isVisible := true, isInteractive := true,
             isTopElement := true, isInViewport := true, shadowRoot := false } []

/-- C2 as stated is false: the snapshot built from the orphan payload has
selector-map key 0 bound to the orphan button, but that node is not reachable
in the returned tree, whose only node is the childless root. -/
theorem selectorMap_unreachable_counterexample :
    smLookup (_constructDomTree cPayload).2 0 = some cOrphanNode ∧
    cOrphanNode ∉ collectNodes (_constructDomTree cPayload).1 := by
  constructor
  · decide
  · decide

/-! ### Supporting lemmas for the selector-map bijection (C2) -/

/-- The highlight index of the parsed node of a raw entry, when that node is
an element. -/
def parsedIndexOf (nd : RawNode) : Option Int :=
  match (_parseNode nd).1 with
  | some (.element d _) => d.highlightIndex
  | _ => none

/-- An id absent from the payload never builds. -/
theorem buildNode_none_of_lookup_none (m : List (String × RawNode)) (id : String)
    (h : lookupRaw m id = none) : ∀ f, buildNode m f id = none
  | 0 => rfl
  | f + 1 => by simp [buildNode, h]

/-- A built id is present in the payload. -/
theorem lookup_isSome_of_buildNode_some (m : List (String × RawNode)) (id : String)
    (f : Nat) (t : DOMNode) (h : buildNode m f id = some t) :
    (lookupRaw m id).isSome = true := by
  cases f with
  | zero => exact absurd h (by simp [buildNode])
  | succ g =>
      rw [buildNode] at h
      cases hl : lookupRaw m id with
      | none => rw [hl] at h; exact absurd h (by simp)
      | some nd => rfl

/-- A parsed element node always starts with an empty child list (the wiring
pass attaches children later). -/
theorem _parseNode_elem_nil (nd : RawNode) (d : ElemData) (c : List DOMNode)
    (h : (_parseNode nd).1 = some (.element d c)) : c = [] := by
  unfold _parseNode at h
  split at h
  · split at h <;> simp_all
  · simp only [Option.some.injEq] at h
    exact (DOMNode.element.inj h).2.symm

/-- A built element node comes from an entry that parses to that element,
with its children the wired child ids at one fuel less. -/
theorem buildNode_elem_source (m : List (String × RawNode)) (id : String)
    (f : Nat) (d : ElemData) (kids : List DOMNode)
    (h : buildNode m (f + 1) id = some (.element d kids)) :
    ∃ nd, lookupRaw m id = some nd ∧ (_parseNode nd).1 = some (.element d []) ∧
      kids = nd.children.filterMap (fun cid =>
        if cid = "" then none else buildNode m f cid) := by
  rw [buildNode] at h
  cases hl : lookupRaw m id with
  | none => rw [hl] at h; exact absurd h (by simp)
  | some nd =>
      simp only [hl] at h
      refine ⟨nd, rfl, ?_⟩
      cases hp : (_parseNode nd).1 with
      | none => simp only [hp] at h; exact Option.noConfusion h
      | some pn =>
          simp only [hp] at h
          cases pn with
          | text v t => simp at h
          | element d2 c2 =>
              have hc2 := _parseNode_elem_nil nd d2 c2 hp
              subst hc2
              simp only [Option.some.injEq] at h
              obtain ⟨hd, hk⟩ := DOMNode.element.inj h
              subst hd
              exact ⟨rfl, hk.symm⟩

/-- With a rank function that decreases along present child edges, the build
is independent of the fuel once the fuel exceeds the rank. -/
theorem buildNode_fuel_stable (m : List (String × RawNode)) (rank : String → Nat)
    (hrank : ∀ id nd, lookupRaw m id = some nd → ∀ cid ∈ nd.children, cid ≠ "" →
        (lookupRaw m cid).isSome = true → rank cid < rank id) :
    ∀ (id : String) (f1 f2 : Nat), rank id < f1 → rank id < f2 →
      buildNode m f1 id = buildNode m f2 id := by
  suffices main : ∀ (n : Nat) (id : String), rank id = n → ∀ f1 f2, rank id < f1 →
      rank id < f2 → buildNode m f1 id = buildNode m f2 id by
    intro id f1 f2 h1 h2
    exact main (rank id) id rfl f1 f2 h1 h2
  intro n
  induction n using Nat.strong_induction_on with
  | _ n ih =>
      intro id hn f1 f2 h1 h2
      obtain ⟨g1, rfl⟩ : ∃ g, f1 = g + 1 := ⟨f1 - 1, by omega⟩
      obtain ⟨g2, rfl⟩ : ∃ g, f2 = g + 1 := ⟨f2 - 1, by omega⟩
      cases hl : lookupRaw m id with
      | none =>
          rw [buildNode, buildNode, hl]
      | some nd =>
          simp only [buildNode, hl]
          cases hp : (_parseNode nd).1 with
          | none => rfl
          | some pn =>
              cases pn with
              | text v t => rfl
              | element d c =>
                  simp only [Option.some.injEq, DOMNode.element.injEq, true_and]
                  refine List.filterMap_congr ?_
                  intro cid hc
                  by_cases he : cid = ""
                  · simp [he]
                  · rw [if_neg he, if_neg he]
                    cases hlc : lookupRaw m cid with
                    | none =>
                        rw [buildNode_none_of_lookup_none m cid hlc,
                          buildNode_none_of_lookup_none m cid hlc]
                    | some ndc =>
                        have hlt := hrank id nd hl cid hc he (by rw [hlc]; rfl)
                        exact ih (rank cid) (by omega) cid rfl g1 g2 (by omega) (by omega)

/-- Every element node collected from a built tree is itself the build of
some id, at the same fuel. -/
theorem collect_mem_build (m : List (String × RawNode)) (rank : String → Nat)
    (hrank : ∀ id nd, lookupRaw m id = some nd → ∀ cid ∈ nd.children, cid ≠ "" →
        (lookupRaw m cid).isSome = true → rank cid < rank id) :
    ∀ (F : Nat) (id : String) (t : DOMNode), rank id < F → buildNode m F id = some t →
      ∀ n ∈ collectNodes t, ∀ d kids, n = DOMNode.element d kids →
        ∃ id2, rank id2 < F ∧ buildNode m F id2 = some n := by
  intro F
  induction F with
  | zero => intro id t h; omega
  | succ F ih =>
      intro id t hrk hb n hn d kids hnd
      subst hnd
      match t, hb with
      | .text v tx, hb =>
          simp [collectNodes] at hn
      | .element dd kk, hb =>
          rw [collectNodes] at hn
          rcases List.mem_cons.mp hn with hn | hn
          · exact ⟨id, hrk, by rw [hb, hn]⟩
          · obtain ⟨nd, hl, hp, hkids⟩ := buildNode_elem_source m id F dd kk hb
            rcases mem_collectNodesList.mp hn with ⟨c, hc, hnc⟩
            rw [hkids] at hc
            rcases List.mem_filterMap.mp hc with ⟨cid, hcid, hf⟩
            have he : cid ≠ "" := by
              intro habs; rw [habs] at hf; simp at hf
            rw [if_neg he] at hf
            have hls := lookup_isSome_of_buildNode_some m cid F c hf
            have hlt : rank cid < rank id := hrank id nd hl cid hcid he hls
            obtain ⟨id2, hr2, hb2⟩ := ih cid c (by omega) hf (DOMNode.element d kids) hnc d kids rfl
            refine ⟨id2, by omega, ?_⟩
            rw [buildNode_fuel_stable m rank hrank id2 (F + 1) F (by omega) hr2]
            exact hb2

/-- Under unique payload keys, looking up the key of an entry returns that
entry. -/
theorem lookupRaw_self (m : List (String × RawNode))
    (hkeys : (m.map Prod.fst).Nodup) :
    ∀ e ∈ m, lookupRaw m e.1 = some e.2 := by
  induction m with
  | nil => intro e he; simp at he
  | cons x xs ih =>
      intro e he
      rcases List.mem_cons.mp he with he | he
      · subst he
        simp [lookupRaw, List.find?]
      · have hx : x.1 ≠ e.1 := by
          intro habs
          have : x.1 ∈ xs.map Prod.fst := habs ▸ List.mem_map_of_mem Prod.fst he
          exact (List.nodup_cons.mp hkeys).1 this
        have := ih (List.nodup_cons.mp hkeys).2 e he
        simp only [lookupRaw, List.find?] at this ⊢
        rw [show (x.1 == e.1) = false from beq_eq_false_iff_ne.mpr hx]
        exact this

/-- A found entry of the raw map is a member with the looked-up key. -/
theorem lookupRaw_mem (m : List (String × RawNode)) (id : String) (nd : RawNode)
    (h : lookupRaw m id = some nd) : (id, nd) ∈ m := by
  unfold lookupRaw at h
  cases hf : m.find? (fun e => e.1 == id) with
  | none => rw [hf] at h; exact absurd h (by simp)
  | some e =>
      rw [hf] at h
      have hpe := List.find?_some hf
      have hme : e ∈ m := List.mem_of_find?_eq_some hf
      have h1 : e.1 = id := by simpa using hpe
      have h2 : e.2 = nd := by simpa using h
      have : e = (id, nd) := by
        cases e; simp_all
      rw [this] at hme
      exact hme

/-- Selector-map lookup returns the unique entry under a key. -/
theorem smLookup_eq_of_unique (sm : List (Int × DOMNode)) (h : Int) (n : DOMNode)
    (hmem : (h, n) ∈ sm) (huniq : ∀ e ∈ sm, e.1 = h → e.2 = n) :
    smLookup sm h = some n := by
  unfold smLookup
  have hsome : ((sm.reverse).find? (fun e => e.1 == h)).isSome :=
    List.find?_isSome.mpr ⟨(h, n), List.mem_reverse.mpr hmem, by simp⟩
  obtain ⟨e, he⟩ := Option.isSome_iff_exists.mp hsome
  have hpe := List.find?_some he
  have hme : e ∈ sm := List.mem_reverse.mp (List.mem_of_find?_eq_some he)
  have hpe2 : e.1 = h := by simpa using hpe
  rw [he]
  exact congrArg some (huniq e hme hpe2)

/-- Reachability of an id from the root id along wired element edges of the
payload: one step descends from an id whose node parses to an element to a
nonempty child id whose node exists and parses. -/
inductive ReachesId (m : List (String × RawNode)) : String → String → Prop where
  | refl (id : String) : ReachesId m id id
  | step (a b cid : String) (nd ndc : RawNode) :
      ReachesId m a b → lookupRaw m b = some nd →
      (∃ d, (_parseNode nd).1 = some (.element d [])) →
      cid ∈ nd.children → cid ≠ "" →
      lookupRaw m cid = some ndc → ((_parseNode ndc).1).isSome = true →
      ReachesId m a cid

/-- The build of an id reachable from the built root is a node of the root
tree. -/
theorem reaches_mem_collect (m : List (String × RawNode)) (rank : String → Nat)
    (hrank : ∀ id nd, lookupRaw m id = some nd → ∀ cid ∈ nd.children, cid ≠ "" →
        (lookupRaw m cid).isSome = true → rank cid < rank id)
    (F : Nat) (rid : String) (root : DOMNode)
    (hrF : rank rid < F) (hroot : buildNode m F rid = some root) :
    ∀ id, ReachesId m rid id →
      ∃ t, rank id < F ∧ buildNode m F id = some t ∧ t ∈ collectNodes root := by
  intro id hre
  induction hre with
  | refl => exact ⟨root, hrF, hroot, self_mem_collectNodes root⟩
  | step b cid nd ndc hab hlb hpel hcc hne hlc hpc ih =>
      obtain ⟨tb, hrb, hbb, htb⟩ := ih
      obtain ⟨d, hpd⟩ := hpel
      obtain ⟨g, rfl⟩ : ∃ g, F = g + 1 := ⟨F - 1, by omega⟩
      rw [buildNode] at hbb
      simp only [hlb, hpd] at hbb
      have hltc : rank cid < rank b := hrank b nd hlb cid hcc hne (by rw [hlc]; rfl)
      have hg1 : 1 ≤ g := by omega
      obtain ⟨g2, rfl⟩ : ∃ g2, g = g2 + 1 := ⟨g - 1, by omega⟩
      have hbc : ∃ tc, buildNode m (g2 + 1 + 1) cid = some tc := by
        rw [buildNode]
        simp only [hlc]
        cases hq : (_parseNode ndc).1 with
        | none => rw [hq] at hpc; exact absurd hpc (by simp)
        | some pn =>
            cases pn with
            | text v t => exact ⟨_, rfl⟩
            | element d2 c2 => exact ⟨_, rfl⟩
      obtain ⟨tc, htc⟩ := hbc
      have hstab : buildNode m (g2 + 1) cid = buildNode m (g2 + 1 + 1) cid :=
        buildNode_fuel_stable m rank hrank cid (g2 + 1) (g2 + 1 + 1)
          (by omega) (by omega)
      have htc1 : buildNode m (g2 + 1) cid = some tc := by rw [hstab]; exact htc
      have htmem : tc ∈ collectNodes tb := by
        have hbb2 : DOMNode.element d (nd.children.filterMap (fun cid =>
            if cid = "" then none else buildNode m (g2 + 1) cid)) = tb := by
          simpa using hbb
        rw [← hbb2, collectNodes]
        refine List.mem_cons_of_mem _ (mem_collectNodesList.mpr ⟨tc, ?_, self_mem_collectNodes tc⟩)
        exact List.mem_filterMap.mpr ⟨cid, hcc, by rw [if_neg hne]; exact htc1⟩
      exact ⟨tc, by omega, htc, collectNodes_trans root tb htb tc htmem⟩

/-- C2 (amended): for snapshots built from a payload with unique ids whose
child graph is acyclic (witnessed by a rank function decreasing along present
child edges and bounded by the payload size), whose parsed indexed elements
carry pairwise-distinct highlight indices, and in which every indexed entry
is reachable from the root id along element edges, the selector map is a
bijection with the indexed nodes of the returned tree: every key maps to
exactly one node, that node is in the tree, and every node of the tree with a
non-null highlightIndex is the selector-map entry under exactly that index. -/
theorem selectorMap_tree_bijection (m : List (String × RawNode)) (rid : String)
    (rank : String → Nat)
    (hkeys : (m.map Prod.fst).Nodup)
    (hrank : ∀ id nd, lookupRaw m id = some nd → ∀ cid ∈ nd.children, cid ≠ "" →
        (lookupRaw m cid).isSome = true → rank cid < rank id)
    (hbound : ∀ id, rank id < m.length + 1)
    (hidx : ∀ e1 ∈ m, ∀ e2 ∈ m, ∀ hi : Int, parsedIndexOf e1.2 = some hi →
        parsedIndexOf e2.2 = some hi → e1.1 = e2.1)
    (hreach : ∀ e ∈ m, (parsedIndexOf e.2).isSome = true → ReachesId m rid e.1)
    (root : DOMNode) (hroot : buildNode m (m.length + 1) rid = some root)
    (h : Int) (n : DOMNode) :
    (smLookup (_constructDomTree ⟨some rid, some m⟩).2 h = some n →
      n ∈ collectNodes (_constructDomTree ⟨some rid, some m⟩).1) ∧
    (n ∈ collectNodes (_constructDomTree ⟨some rid, some m⟩).1 →
      n.elemHighlightIndex = some h →
      smLookup (_constructDomTree ⟨some rid, some m⟩).2 h = some n) := by
  have hconstruct : _constructDomTree ⟨some rid, some m⟩
      = (root, selectorMapOf m (m.length + 1)) := by
    simp [_constructDomTree, hroot]
  rw [hconstruct]
  constructor
  · intro hsm
    unfold smLookup at hsm
    cases hf : (selectorMapOf m (m.length + 1)).reverse.find? (fun e => e.1 == h) with
    | none => rw [hf] at hsm; exact absurd hsm (by simp)
    | some e =>
        rw [hf] at hsm
        have hval : e.2 = n := by simpa using hsm
        have hmem : e ∈ selectorMapOf m (m.length + 1) :=
          List.mem_reverse.mp (List.mem_of_find?_eq_some hf)
        rcases List.mem_filterMap.mp hmem with ⟨en, hen, hfen⟩
        cases hb : buildNode m (m.length + 1) en.1 with
        | none => rw [hb] at hfen; simp at hfen
        | some t =>
            rw [hb] at hfen
            cases t with
            | text v tx => simp at hfen
            | element d kids =>
                cases hhi : d.highlightIndex with
                | none => simp [hhi] at hfen
                | some h2 =>
                    simp only [hhi] at hfen
                    have he2 : e.2 = DOMNode.element d kids := by
                      rw [← Option.some_inj.mp hfen]
                    have hlookup : lookupRaw m en.1 = some en.2 :=
                      lookupRaw_self m hkeys en hen
                    obtain ⟨nd, hl, hp, hkids⟩ :=
                      buildNode_elem_source m en.1 m.length d kids hb
                    have hnd : nd = en.2 := by
                      rw [hlookup] at hl; exact (Option.some.inj hl).symm
                    have hpi : parsedIndexOf en.2 = some h2 := by
                      rw [← hnd]
                      unfold parsedIndexOf
                      rw [hp]
                      exact hhi
                    have hre := hreach en hen (by rw [hpi]; rfl)
                    obtain ⟨t2, hr2, hb2, hmem2⟩ := reaches_mem_collect m rank hrank
                      (m.length + 1) rid root (hbound rid) hroot en.1 hre
                    have ht2 : t2 = DOMNode.element d kids := by
                      rw [hb] at hb2; exact Option.some.inj hb2.symm
                    rw [← hval, he2, ← ht2]
                    exact hmem2
  · intro hcol hhin
    cases n with
    | text v tx => simp [DOMNode.elemHighlightIndex] at hhin
    | element d kids =>
        simp only [DOMNode.elemHighlightIndex] at hhin
        obtain ⟨id2, hr2, hb2⟩ := collect_mem_build m rank hrank (m.length + 1) rid
          root (hbound rid) hroot (DOMNode.element d kids) hcol d kids rfl
        obtain ⟨nd2, hl2, hp2, hk2⟩ := buildNode_elem_source m id2 m.length d kids hb2
        have hm2 : (id2, nd2) ∈ m := lookupRaw_mem m id2 nd2 hl2
        have hpi2 : parsedIndexOf nd2 = some h := by
          unfold parsedIndexOf
          rw [hp2]
          exact hhin
        have hsm_mem : (h, DOMNode.element d kids) ∈ selectorMapOf m (m.length + 1) := by
          refine List.mem_filterMap.mpr ⟨(id2, nd2), hm2, ?_⟩
          simp [hb2, hhin]
        have huni : ∀ e ∈ selectorMapOf m (m.length + 1), e.1 = h →
            e.2 = DOMNode.element d kids := by
          intro e he heq
          rcases List.mem_filterMap.mp he with ⟨en, hen, hfen⟩
          cases hb3 : buildNode m (m.length + 1) en.1 with
          | none => rw [hb3] at hfen; simp at hfen
          | some t3 =>
              rw [hb3] at hfen
              cases t3 with
              | text _ _ => simp at hfen
              | element d3 kids3 =>
                  cases hhi3 : d3.highlightIndex with
                  | none => simp [hhi3] at hfen
                  | some h3 =>
                      simp only [hhi3] at hfen
                      have he13 : e = (h3, DOMNode.element d3 kids3) :=
                        (Option.some_inj.mp hfen).symm
                      have hh3 : h3 = h := by rw [he13] at heq; exact heq
                      obtain ⟨nd3, hl3, hp3, hk3⟩ :=
                        buildNode_elem_source m en.1 m.length d3 kids3 hb3
                      have hnd3 : nd3 = en.2 := by
                        rw [lookupRaw_self m hkeys en hen] at hl3
                        exact (Option.some.inj hl3).symm
                      have hpi3 : parsedIndexOf en.2 = some h := by
                        rw [← hnd3]
                        unfold parsedIndexOf
                        rw [hp3]
                        show d3.highlightIndex = some h
                        rw [hhi3, hh3]
                      have hid : en.1 = id2 := hidx en hen (id2, nd2) hm2 h hpi3 hpi2
                      rw [hid, hb2] at hb3
                      have : DOMNode.element d kids = DOMNode.element d3 kids3 :=
                        Option.some.inj hb3
                      rw [he13, ← this]
        exact smLookup_eq_of_unique _ h (DOMNode.element d kids) hsm_mem huni

/-- Raw body element of the C2 witness payload, with two children. -/
def crBody3 : RawNode :=
  { nodeType := "ELEMENT_NODE", text := "", isVisible := true, tagName := "body",
    xpath := "/body", attributes := [], isInteractive := false,
    isTopElement := true, isInViewport := true, shadowRoot := false,
    highlightIndex := none, children := ["2", "3"] }

/-- Raw indexed button element of the C2 witness payload. -/
def crBtn3 : RawNode :=
  { nodeType := "ELEMENT_NODE", text := "", isVisible := true, tagName := "button",
    xpath := "/body/button", attributes := [], isInteractive := true,
    isTopElement := true, isInViewport := true, shadowRoot := false,
    highlightIndex := some 0, children := [] }

/-- Raw text node of the C2 witness payload. -/
def crText3 : RawNode :=
  { nodeType := "TEXT_NODE", text := "Hello", isVisible := true, tagName := "",
    xpath := "", attributes := [], isInteractive := false,
    isTopElement := false, isInViewport := false, shadowRoot := false,
    highlightIndex := none, children := [] }

/-- The C2 witness payload map: a body with an indexed button child and a
text child. -/
def cMap3 : List (String × RawNode) :=
  [("1", crBody3), ("2", crBtn3), ("3", crText3)]

/-- Rank function witnessing the acyclicity of the witness payload. -/
def cRank : String → Nat := fun id => if id = "1" then 1 else 0

/-- Parsed element data of the witness body. -/
def cBodyD : ElemData :=
  { tagName := "body", xpath := "/body", attributes := [], highlightIndex := none,
    isVisible := true, isInteractive := false, isTopElement := true,
    isInViewport := true, shadowRoot := false }

/-- The wired button node of the witness payload. -/
def cBtnNode : DOMNode :=
  .element { tagName := "button", xpath := "/body/button", attributes := [],
             highlightIndex := some 0, isVisible := true, isInteractive := true,
             isTopElement := true, isInViewport := true, shadowRoot := false } []

/-- The wired root of the witness payload. -/
def cRoot3 : DOMNode := .element cBodyD [cBtnNode, .text true "Hello"]

/-- Witness for the amended C2 at a concrete well-formed payload: key 0 of
the selector map is the button node and that node is in the returned tree. -/
theorem selectorMap_tree_bijection_witness :
    smLookup (_constructDomTree ⟨some "1", some cMap3⟩).2 0 = some cBtnNode ∧
    cBtnNode ∈ collectNodes (_constructDomTree ⟨some "1", some cMap3⟩).1 := by
  have pv1 : parsedIndexOf crBody3 = none := by decide
  have pv2 : parsedIndexOf crBtn3 = some 0 := by decide
  have pv3 : parsedIndexOf crText3 = none := by decide
  have h := selectorMap_tree_bijection cMap3 "1" cRank
    (by decide)
    (by
      intro id nd hl cid hc hne hsk
      by_cases h1 : id = "1"
      · subst h1
        have hv : lookupRaw cMap3 "1" = some crBody3 := by decide
        rw [hv] at hl
        have hnd := Option.some.inj hl
        subst hnd
        have : cid = "2" ∨ cid = "3" := by simpa [crBody3] using hc
        rcases this with rfl | rfl <;> decide
      · by_cases h2 : id = "2"
        · subst h2
          have hv : lookupRaw cMap3 "2" = some crBtn3 := by decide
          rw [hv] at hl
          have hnd := Option.some.inj hl
          subst hnd
          simp [crBtn3] at hc
        · by_cases h3 : id = "3"
          · subst h3
            have hv : lookupRaw cMap3 "3" = some crText3 := by decide
            rw [hv] at hl
            have hnd := Option.some.inj hl
            subst hnd
            simp [crText3] at hc
          · have e1 : ("1" == id) = false := beq_eq_false_iff_ne.mpr (fun hh => h1 hh.symm)
            have e2 : ("2" == id) = false := beq_eq_false_iff_ne.mpr (fun hh => h2 hh.symm)
            have e3 : ("3" == id) = false := beq_eq_false_iff_ne.mpr (fun hh => h3 hh.symm)
            simp [lookupRaw, cMap3, List.find?, e1, e2, e3] at hl)
    (by
      intro id
      have hlen : cMap3.length = 3 := rfl
      unfold cRank
      split <;> omega)
    (by
      intro e1 he1 e2 he2 hi hp1 hp2
      fin_cases he1 <;> fin_cases he2 <;> simp_all)
    (by
      intro e he hs
      fin_cases he
      · simp [pv1] at hs
      · exact ReachesId.step "1" "1" "2" crBody3 crBtn3 (ReachesId.refl "1")
          (by decide) ⟨cBodyD, by decide⟩ (by decide) (by decide) (by decide)
          (by decide)
      · simp [pv3] at hs)
    cRoot3 (by decide) 0 cBtnNode
  have h1 : smLookup (_constructDomTree ⟨some "1", some cMap3⟩).2 0 = some cBtnNode := by
    decide
  exact ⟨h1, h.1 h1⟩
